import Mathlib

/-!
# Verification of the Costa plugin-package runtime

Shallow embedding of `src/packages/costa/src/runtime.ts` (the package-management
engine of the pipcook plugin runtime): npm manifest selection, the ETag-aware
cached HTTP fetch, requirement-line derivation, identifier parsing,
validate-and-assign, and the install/uninstall lifecycle over a modelled
file-system state.

JavaScript conventions are embedded explicitly: nullable/undefined values
become `Option`, thrown exceptions become `Except`/an error constructor,
object string maps become association lists (unique keys, insertion order),
and string truthiness (`""`/`undefined` are falsy) is spelled out at each
use site.
-/

namespace Costa

/-- Error taxonomy of the runtime.  The source throws `TypeError` everywhere;
the constructors follow the roles those throws play (source resolution,
fetch, validation, install, plus a raw crash for property access on
`undefined`). -/
inductive CostaError where
  | sourceResolutionError (msg : String)
  | fetchError (msg : String)
  | validationError (msg : String)
  | installError (msg : String)
  | manifestReadError
  | crash
  deriving DecidableEq, Repr

/-- One concrete manifest stored under a version key of the registry
metadata (`NpmPackage` in the source; contents beyond identity are not
needed by the selection logic). -/
structure NpmPackage where
  name : String
  version : String
  deriving DecidableEq, Repr

/-- The `dist-tags` object of registry metadata; the source only ever reads
the `latest` and `beta` properties (absent property ⇒ `none`). -/
structure DistTags where
  latest : Option String
  beta : Option String
  deriving DecidableEq, Repr

/-- `NpmPackageMetadata`: `dist-tags` plus the `versions` map
(version string → manifest), embedded as an association list. -/
structure NpmPackageMetadata where
  distTags : DistTags
  versions : List (String × NpmPackage)
  deriving DecidableEq, Repr

/-- JS property lookup `metadata.versions[v]` (undefined ⇒ `none`). -/
def lookupVersion (m : NpmPackageMetadata) (v : String) : Option NpmPackage :=
  (m.versions.find? (fun p => p.1 = v)).map (fun p => p.2)

/-- `NpmPackageNameSchema`: scope (with the leading `@`), bare name, and
optional version segment. -/
structure NpmPackageNameSchema where
  scope : Option String
  name : String
  version : Option String
  deriving DecidableEq, Repr

/-- The four source protocols (`PluginProtocol`). -/
inductive Protocol where
  | npm
  | git
  | fs
  | tarball
  deriving DecidableEq, Repr

/-- `PluginSource`: protocol, raw identifier, resolved uri, and (for npm)
the parsed name schema. -/
structure PluginSource where
  fromProtocol : Protocol
  name : String
  uri : Option String
  schema : Option NpmPackageNameSchema := none
  deriving DecidableEq, Repr

/-- `selectNpmPackage(metadata, source)` from `runtime.ts:38`:
destructures `source?.schema` (crash when absent), then applies the ordered
dist-tag/version selection rule.  A missing map entry is `none`, mirroring
the JS `undefined` result of `metadata.versions[...]`. -/
def selectNpmPackage (m : NpmPackageMetadata) (source : PluginSource) :
    Except CostaError (Option NpmPackage) :=
  match source.schema with
  | none => .error .crash
  | some schema =>
    if schema.version = some "beta" then
      match m.distTags.beta with
      | none =>
        .error (.sourceResolutionError
          ("the package \"" ++ source.name ++ "\" has no beta version."))
      | some b => .ok (lookupVersion m b)
    else if schema.version = some "latest" then
      .ok (m.distTags.latest.bind (fun t => lookupVersion m t))
    else
      match schema.version with
      | some v =>
        if v = "" then .ok (m.distTags.latest.bind (fun t => lookupVersion m t))
        else .ok (lookupVersion m v)
      | none => .ok (m.distTags.latest.bind (fun t => lookupVersion m t))

/-- Concrete metadata used by the spec's worked example:
dist-tags `{latest: "1.2.0", beta: "2.0.0-beta"}`. -/
def exMeta : NpmPackageMetadata :=
  { distTags := { latest := some "1.2.0", beta := some "2.0.0-beta" }
    versions :=
      [ ("1.2.0", { name := "p", version := "1.2.0" })
      , ("2.0.0-beta", { name := "p", version := "2.0.0-beta" }) ] }

/-- The same metadata with no `beta` dist-tag. -/
def exMetaNoBeta : NpmPackageMetadata :=
  { distTags := { latest := some "1.2.0", beta := none }
    versions := [ ("1.2.0", { name := "p", version := "1.2.0" }) ] }

/-- A source requesting `version` of package `p` over npm. -/
def exSource (version : Option String) : PluginSource :=
  { fromProtocol := .npm
    name := "p"
    uri := some "https://registry.npmjs.com/p"
    schema := some { scope := none, name := "p", version := version } }

/-- Modelled from the spec: the `BoundedCache`/`LRUCache` component
(`src/packages/costa/src/lrucache.ts` is not part of the sources under
study; §3 of the spec fixes its behaviour).  `entries` is the
most-recent-first sequence of key/value pairs; `|entries| ≤ capacity`;
`get` on a hit moves the key to the most-recent position; `put` on an
existing key updates the value and moves it to most-recent; `put` beyond
capacity evicts the least-recently-used key. -/
structure LRUCache (α : Type) where
  capacity : Nat
  entries : List (String × α)
  deriving DecidableEq, Repr

/-- `get(key)`: the looked-up value (or `none`) together with the cache in
its post-access recency order. -/
def LRUCache.get {α : Type} (c : LRUCache α) (k : String) :
    Option α × LRUCache α :=
  match c.entries.find? (fun p => p.1 = k) with
  | none => (none, c)
  | some p =>
    (some p.2,
     { c with entries := (k, p.2) :: c.entries.filter (fun q => ¬ q.1 = k) })

/-- `put(key, value)`: insert/update at the most-recent position, evicting
from the least-recently-used end beyond capacity. -/
def LRUCache.put {α : Type} (c : LRUCache α) (k : String) (v : α) :
    LRUCache α :=
  { c with
    entries := ((k, v) :: c.entries.filter (fun q => ¬ q.1 = k)).take c.capacity }

/-- An `HTTPCache` entry from `runtime.ts:141`: response validators plus the
parsed body. -/
structure HTTPCache (β : Type) where
  etag : Option String
  lastModified : Option String
  body : β
  deriving DecidableEq, Repr

/-- The observed HTTP response (`resolveWithFullResponse`): status code,
validator headers, raw body text, and the response's status message (read as
`resp.message` at `runtime.ts:185`). -/
structure HttpResponse where
  statusCode : Nat
  etag : Option String
  lastModified : Option String
  body : String
  message : String
  deriving DecidableEq, Repr

/-- Outcome of the cached GET: parsed body plus updated cache, a thrown
`FetchError`, or a crash (property access on an `undefined` cache entry). -/
inductive FetchOut (β : Type) where
  | ok (body : β) (cache : LRUCache (HTTPCache β))
  | fetchError (msg : String)
  | crash
  deriving DecidableEq, Repr

/-- `requestHttpGetWithCache(uri)` from `runtime.ts:158`, with the network
round-trip abstracted into the `resp` argument and JSON parsing into the
`parse` function.  The cache lookup happens first (recency updated even on a
miss path); HTTP 200 parses the body and stores
`{etag, lastModified, body}` under the uri; HTTP 304 returns the cached
body; any other status throws with the response's status message. -/
def requestHttpGetWithCache {β : Type} (parse : String → β)
    (cache : LRUCache (HTTPCache β)) (uri : String) (resp : HttpResponse) :
    FetchOut β :=
  let looked := cache.get uri
  if resp.statusCode = 200 then
    let body := parse resp.body
    .ok body (looked.2.put uri
      { etag := resp.etag, lastModified := resp.lastModified, body := body })
  else if resp.statusCode = 304 then
    match looked.1 with
    | some c => .ok c.body looked.2
    | none => .crash
  else .fetchError resp.message

/-- Returned body of a successful fetch outcome. -/
def FetchOut.bodyOf {β : Type} : FetchOut β → Option β
  | .ok b _ => some b
  | _ => none

/-- Resulting cache of a successful fetch outcome. -/
def FetchOut.cacheOf {β : Type} : FetchOut β → Option (LRUCache (HTTPCache β))
  | .ok _ c => some c
  | _ => none

theorem LRUCache.capacity_get {α : Type} (c : LRUCache α) (k : String) :
    ((c.get k).2).capacity = c.capacity := by
  unfold LRUCache.get
  cases c.entries.find? (fun p => p.1 = k) <;> rfl

theorem LRUCache.get_put_self {α : Type} (c : LRUCache α) (k : String) (v : α)
    (hcap : 0 < c.capacity) : ((c.put k v).get k).1 = some v := by
  obtain ⟨n, hn⟩ : ∃ n, c.capacity = n + 1 := ⟨c.capacity - 1, by omega⟩
  unfold LRUCache.put LRUCache.get
  simp [hn, List.take_succ_cons, List.find?_cons]

/-- Modelled file-system state seen by install/uninstall: the configured
install root, the set of existing paths, and the root `package.json`
(`none` when the file does not exist; its `dependencies` map embedded as an
association list, an absent field behaving as the empty map). -/
structure FsState where
  installDir : String
  paths : List String
  rootManifest : Option (List (String × String))
  deriving DecidableEq, Repr

/-- `pathExists` over the modelled path set. -/
def hasPath (paths : List String) (p : String) : Bool :=
  paths.any (fun q => q = p)

/-- Character-list core of JS `String.startsWith`: `beginsList pre s`. -/
def beginsList : List Char → List Char → Bool
  | [], _ => true
  | _ :: _, [] => false
  | c :: cs, d :: ds => c = d && beginsList cs ds

/-- JS `s.startsWith(pre)`. -/
def strBegins (s pre : String) : Bool :=
  beginsList pre.toList s.toList

/-- `fs-extra`'s recursive `remove(p)`: `p` itself and everything below it
disappears. -/
def removeRec (paths : List String) (p : String) : List String :=
  paths.filter (fun q => decide (¬ (q = p ∨ strBegins q (p ++ "/") = true)))

/-- `isInstalled(name)` from `runtime.ts:472`: existence of the unversioned
path `{installDir}/node_modules/{name}`. -/
def isInstalled (installDir : String) (paths : List String) (name : String) :
    Bool :=
  hasPath paths (installDir ++ "/node_modules/" ++ name)

/-- Result of one `removePkg` pass inside `uninstall`. -/
structure RemoveOut where
  removed : Bool
  paths : List String
  deps : List (String × String)
  deriving DecidableEq, Repr

/-- The `removePkg(name, version)` closure from `runtime.ts:419`: skip when
not installed; otherwise remove `node_modules/{name}` (note: unversioned)
and `conda_envs/{name}@{version}` concurrently, and delete the (truthy)
`dependencies[name]` entry of the in-memory root manifest. -/
def removePkg (installDir : String) (paths : List String)
    (deps : List (String × String)) (name version : String) : RemoveOut :=
  if isInstalled installDir paths name then
    { removed := true
      paths := removeRec
        (removeRec paths (installDir ++ "/node_modules/" ++ name))
        (installDir ++ "/conda_envs/" ++ name ++ "@" ++ version)
      deps :=
        match deps.find? (fun kv => kv.1 = name) with
        | some kv =>
          if kv.2 = "" then deps
          else deps.filter (fun kv => decide (¬ kv.1 = name))
        | none => deps }
  else { removed := false, paths := paths, deps := deps }

/-- The per-entry loop of `uninstall`: thread path set and in-memory
dependency map through the entries, or-ing the per-entry results. -/
def runRemovals (installDir : String) (entries : List (String × String))
    (paths : List String) (deps : List (String × String)) :
    Bool × List String × List (String × String) :=
  match entries with
  | [] => (false, paths, deps)
  | e :: rest =>
    let r := removePkg installDir paths deps e.1 e.2
    let out := runRemovals installDir rest r.paths r.deps
    (r.removed || out.1, out.2.1, out.2.2)

/-- `uninstall(pkgMeta)` from `runtime.ts:416` on a batch (the single-object
overload is the singleton batch): read the root manifest (throws when the
file is missing), run the removals, and rewrite the manifest to disk only
when at least one removal occurred. -/
def uninstall (st : FsState) (entries : List (String × String)) :
    Except CostaError (Bool × FsState) :=
  match st.rootManifest with
  | none => .error .manifestReadError
  | some deps0 =>
    let out := runRemovals st.installDir entries st.paths deps0
    .ok (out.1,
      { st with
        paths := out.2.1
        rootManifest := if out.1 then some out.2.2 else st.rootManifest })

/-- Provisioning actions of `install`, recorded as an event trace. -/
inductive InstallEvent where
  | uninstallPass
  | npmInit
  | nodeInstall
  | pythonEnvSetup
  deriving DecidableEq, Repr

/-- `install` after the optional forced uninstall pass (`runtime.ts:389`
onwards): the already-installed short-circuit (`isInstalled && !force`, so
skipped whenever `force` is truthy), the boa toolchain check, then the two
provisioning pipelines (module pipeline initialises the root manifest when
absent; interpreter pipeline only when conda dependencies are declared). -/
def installBody (st1 : FsState) (boaResolvable : Bool) (hasCondaDeps : Bool)
    (name : String) (forceTruthy : Bool) :
    List InstallEvent × Except CostaError (Bool × FsState) :=
  if isInstalled st1.installDir st1.paths name && !forceTruthy then
    ([], .ok (true, st1))
  else if !boaResolvable then
    ([], .error (.installError "boa not exists, please try init again."))
  else
    ((if st1.rootManifest.isSome then [] else [.npmInit])
       ++ [.nodeInstall]
       ++ (if hasCondaDeps then [.pythonEnvSetup] else []),
     .ok (true, st1))

/-- `install(pkg, opts)` from `runtime.ts:385`: when `opts.force === true`,
run an uninstall pass first (whose failure aborts the call), then proceed to
the short-circuit check and the provisioning pipelines. -/
def install (st : FsState) (boaResolvable : Bool) (hasCondaDeps : Bool)
    (name version : String) (force : Option Bool) :
    List InstallEvent × Except CostaError (Bool × FsState) :=
  if force = some true then
    match uninstall st [(name, version)] with
    | .error e => ([.uninstallPass], .error e)
    | .ok r =>
      let out := installBody r.2 boaResolvable hasCondaDeps name true
      (.uninstallPass :: out.1, out.2)
  else installBody st boaResolvable hasCondaDeps name false

/-- C1: manifest selection follows the ordered rule — requesting `beta` with
no beta dist-tag fails with a SourceResolutionError; `beta`/`latest` resolve
through the dist-tag map; an explicit version string is looked up directly
with no range matching; anything else resolves through the `latest` dist-tag.
On metadata with dist-tags `{latest: "1.2.0", beta: "2.0.0-beta"}`, requesting
`beta` returns the manifest at 2.0.0-beta, and requesting `beta` with no beta
tag fails. -/
theorem C1_selection_rule :
    (∀ (m : NpmPackageMetadata) (nm : String) (sch : NpmPackageNameSchema),
        sch.version = some "beta" → m.distTags.beta = none →
        selectNpmPackage m ⟨.npm, nm, none, some sch⟩ =
          .error (.sourceResolutionError
            ("the package \"" ++ nm ++ "\" has no beta version."))) ∧
    (∀ (m : NpmPackageMetadata) (nm : String) (sch : NpmPackageNameSchema)
        (b : String),
        sch.version = some "beta" → m.distTags.beta = some b →
        selectNpmPackage m ⟨.npm, nm, none, some sch⟩ = .ok (lookupVersion m b)) ∧
    (∀ (m : NpmPackageMetadata) (nm : String) (sch : NpmPackageNameSchema)
        (l : String),
        sch.version = some "latest" → m.distTags.latest = some l →
        selectNpmPackage m ⟨.npm, nm, none, some sch⟩ = .ok (lookupVersion m l)) ∧
    (∀ (m : NpmPackageMetadata) (nm : String) (sch : NpmPackageNameSchema)
        (v : String),
        sch.version = some v → v ≠ "beta" → v ≠ "latest" → v ≠ "" →
        selectNpmPackage m ⟨.npm, nm, none, some sch⟩ = .ok (lookupVersion m v)) ∧
    (∀ (m : NpmPackageMetadata) (nm : String) (sch : NpmPackageNameSchema)
        (l : String),
        sch.version = none → m.distTags.latest = some l →
        selectNpmPackage m ⟨.npm, nm, none, some sch⟩ = .ok (lookupVersion m l)) ∧
    selectNpmPackage exMeta (exSource (some "beta")) =
      .ok (some { name := "p", version := "2.0.0-beta" }) ∧
    selectNpmPackage exMetaNoBeta (exSource (some "beta")) =
      .error (.sourceResolutionError "the package \"p\" has no beta version.") := by
  refine ⟨?_, ?_, ?_, ?_, ?_, ?_, ?_⟩
  · intro m nm sch hv hb
    simp [selectNpmPackage, hv, hb]
  · intro m nm sch b hv hb
    simp [selectNpmPackage, hv, hb]
  · intro m nm sch l hv hl
    simp [selectNpmPackage, hv, hl]
  · intro m nm sch v hv h1 h2 h3
    simp [selectNpmPackage, hv, h1, h2, h3]
  · intro m nm sch l hv hl
    simp [selectNpmPackage, hv, hl]
  · rfl
  · rfl

/-- Witness for C1 at the worked example: requesting `beta` resolves through
the beta dist-tag entry `2.0.0-beta`. -/
theorem C1_selection_rule_witness :
    selectNpmPackage exMeta ⟨.npm, "p", none, some ⟨none, "p", some "beta"⟩⟩ =
      .ok (lookupVersion exMeta "2.0.0-beta") :=
  C1_selection_rule.2.1 exMeta "p" ⟨none, "p", some "beta"⟩ "2.0.0-beta" rfl rfl

/-- C10: requesting an explicit version string (not `beta`/`latest`) that is
absent from the `versions` map yields `.ok none` — an absent manifest, not an
error; no failure is signalled at the selection step. -/
theorem C10_absent_version_no_error :
    ∀ (m : NpmPackageMetadata) (nm : String) (sch : NpmPackageNameSchema)
      (v : String),
      sch.version = some v → v ≠ "beta" → v ≠ "latest" → v ≠ "" →
      lookupVersion m v = none →
      selectNpmPackage m ⟨.npm, nm, none, some sch⟩ = .ok none := by
  intro m nm sch v hv h1 h2 h3 habs
  simp [selectNpmPackage, hv, h1, h2, h3, habs]

/-- Witness for C10: version `9.9.9` is absent from the example metadata and
selection returns `.ok none`. -/
theorem C10_absent_version_no_error_witness :
    selectNpmPackage exMeta ⟨.npm, "p", none, some ⟨none, "p", some "9.9.9"⟩⟩ =
      .ok none :=
  C10_absent_version_no_error exMeta "p" ⟨none, "p", some "9.9.9"⟩ "9.9.9"
    rfl (by decide) (by decide) (by decide) rfl

/-- C2: the cached HTTP fetch — on HTTP 200 it parses the body, stores
`{etag, lastModified, body}` in the cache under the uri and returns the
parsed body; on HTTP 304 it returns exactly the previously cached body
object, independently of the parse function (no re-parse); on any other
status it fails with a FetchError carrying the response's status message. -/
theorem C2_cached_fetch :
    (∀ (β : Type) (parse : String → β) (cache : LRUCache (HTTPCache β))
        (uri : String) (resp : HttpResponse),
        resp.statusCode = 200 → 0 < cache.capacity →
        (requestHttpGetWithCache parse cache uri resp).bodyOf
            = some (parse resp.body) ∧
        ∀ c', (requestHttpGetWithCache parse cache uri resp).cacheOf = some c' →
          (c'.get uri).1 = some { etag := resp.etag,
                                  lastModified := resp.lastModified,
                                  body := parse resp.body }) ∧
    (∀ (β : Type) (parse : String → β) (cache : LRUCache (HTTPCache β))
        (uri : String) (resp : HttpResponse) (c : HTTPCache β),
        resp.statusCode = 304 → (cache.get uri).1 = some c →
        requestHttpGetWithCache parse cache uri resp
          = .ok c.body (cache.get uri).2) ∧
    (∀ (β : Type) (p1 p2 : String → β) (cache : LRUCache (HTTPCache β))
        (uri : String) (resp : HttpResponse),
        resp.statusCode = 304 →
        requestHttpGetWithCache p1 cache uri resp
          = requestHttpGetWithCache p2 cache uri resp) ∧
    (∀ (β : Type) (parse : String → β) (cache : LRUCache (HTTPCache β))
        (uri : String) (resp : HttpResponse),
        resp.statusCode ≠ 200 → resp.statusCode ≠ 304 →
        requestHttpGetWithCache parse cache uri resp
          = .fetchError resp.message) := by
  refine ⟨?_, ?_, ?_, ?_⟩
  · intro β parse cache uri resp h200 hcap
    constructor
    · simp [requestHttpGetWithCache, h200, FetchOut.bodyOf]
    · intro c' hc'
      simp [requestHttpGetWithCache, h200, FetchOut.cacheOf] at hc'
      subst hc'
      exact LRUCache.get_put_self _ uri _
        (by rw [LRUCache.capacity_get]; exact hcap)
  · intro β parse cache uri resp c h304 hcached
    simp [requestHttpGetWithCache, h304, hcached]
  · intro β p1 p2 cache uri resp h304
    cases hcached : (cache.get uri).1 <;>
      simp [requestHttpGetWithCache, h304, hcached]
  · intro β parse cache uri resp h200 h304
    simp [requestHttpGetWithCache, h200, h304]

/-- Witness for C2 at a concrete 200 response over an empty capacity-1000
cache with `String.length` as the parse function. -/
theorem C2_cached_fetch_witness :
    (requestHttpGetWithCache String.length
        (⟨1000, []⟩ : LRUCache (HTTPCache Nat)) "u"
        ⟨200, some "e", some "t", "ab", "OK"⟩).bodyOf = some 2 := by
  have h := C2_cached_fetch.1 Nat String.length ⟨1000, []⟩ "u"
    ⟨200, some "e", some "t", "ab", "OK"⟩ rfl (by decide)
  simpa using h.1

theorem hasPath_iff (l : List String) (p : String) :
    hasPath l p = true ↔ p ∈ l := by
  simp [hasPath, List.any_eq_true]

theorem removeRec_sublist (l : List String) (p : String) :
    (removeRec l p).Sublist l :=
  List.filter_sublist l

theorem mem_of_mem_removeRec {l : List String} {p x : String}
    (h : x ∈ removeRec l p) : x ∈ l :=
  (removeRec_sublist l p).subset h

theorem not_mem_removeRec_self (l : List String) (p : String) :
    p ∉ removeRec l p := by
  simp [removeRec, List.mem_filter]

theorem removePkg_removed (d : String) (paths : List String)
    (deps : List (String × String)) (n v : String) :
    (removePkg d paths deps n v).removed = isInstalled d paths n := by
  by_cases h : isInstalled d paths n = true
  · simp [removePkg, h]
  · simp [removePkg, h]

theorem removePkg_of_not_installed (d : String) (paths : List String)
    (deps : List (String × String)) (n v : String)
    (h : isInstalled d paths n = false) :
    removePkg d paths deps n v = ⟨false, paths, deps⟩ := by
  simp [removePkg, h]

theorem removePkg_paths_sublist (d : String) (paths : List String)
    (deps : List (String × String)) (n v : String) :
    (removePkg d paths deps n v).paths.Sublist paths := by
  by_cases h : isInstalled d paths n = true
  · unfold removePkg
    rw [if_pos h]
    exact (removeRec_sublist _ _).trans (removeRec_sublist _ _)
  · unfold removePkg
    rw [if_neg h]

theorem nodePath_not_mem_removePkg (d : String) (paths : List String)
    (deps : List (String × String)) (n v : String)
    (h : isInstalled d paths n = true) :
    (d ++ "/node_modules/" ++ n) ∉ (removePkg d paths deps n v).paths := by
  unfold removePkg
  rw [if_pos h]
  intro hmem
  exact not_mem_removeRec_self _ _ (mem_of_mem_removeRec hmem)

theorem runRemovals_paths_sublist (d : String)
    (entries : List (String × String)) :
    ∀ (paths : List String) (deps : List (String × String)),
      (runRemovals d entries paths deps).2.1.Sublist paths := by
  induction entries with
  | nil => intro paths deps; exact List.Sublist.refl _
  | cons e rest ih =>
    intro paths deps
    exact (ih _ _).trans (removePkg_paths_sublist d paths deps e.1 e.2)

theorem runRemovals_false (d : String) (entries : List (String × String)) :
    ∀ (paths : List String) (deps : List (String × String)),
      (runRemovals d entries paths deps).1 = false →
      (runRemovals d entries paths deps).2.1 = paths := by
  induction entries with
  | nil => intro paths deps _; rfl
  | cons e rest ih =>
    intro paths deps h
    simp only [runRemovals, Bool.or_eq_false_iff] at h
    obtain ⟨h1, h2⟩ := h
    have hni : isInstalled d paths e.1 = false := by
      rw [← removePkg_removed d paths deps e.1 e.2]; exact h1
    have hr := removePkg_of_not_installed d paths deps e.1 e.2 hni
    simp only [runRemovals, hr]
    rw [hr] at h2
    exact ih paths deps h2

theorem runRemovals_true (d : String) (entries : List (String × String)) :
    ∀ (paths : List String) (deps : List (String × String)),
      (runRemovals d entries paths deps).1 = true →
      (runRemovals d entries paths deps).2.1 ≠ paths := by
  induction entries with
  | nil => intro paths deps h; simp [runRemovals] at h
  | cons e rest ih =>
    intro paths deps h hpaths
    by_cases hrem : (removePkg d paths deps e.1 e.2).removed = true
    · have hinst : isInstalled d paths e.1 = true := by
        rw [← removePkg_removed d paths deps e.1 e.2]; exact hrem
      have hmem : (d ++ "/node_modules/" ++ e.1) ∈ paths := by
        rw [← hasPath_iff]; exact hinst
      have hout : (d ++ "/node_modules/" ++ e.1)
          ∉ (runRemovals d (e :: rest) paths deps).2.1 := by
        intro hin
        have : (d ++ "/node_modules/" ++ e.1)
            ∈ (removePkg d paths deps e.1 e.2).paths := by
          have hsub := runRemovals_paths_sublist d rest
            (removePkg d paths deps e.1 e.2).paths
            (removePkg d paths deps e.1 e.2).deps
          exact hsub.subset hin
        exact nodePath_not_mem_removePkg d paths deps e.1 e.2 hinst this
      rw [hpaths] at hout
      exact hout hmem
    · simp only [Bool.not_eq_true] at hrem
      have hni : isInstalled d paths e.1 = false := by
        rw [← removePkg_removed d paths deps e.1 e.2]; exact hrem
      have hr := removePkg_of_not_installed d paths deps e.1 e.2 hni
      simp only [runRemovals, hr, Bool.false_or] at h hpaths
      exact ih paths deps h hpaths

/-- C5: batch uninstall — a not-installed entry is a no-op contributing no
success; the call returns `true` iff at least one removal actually occurred
(iff the path set changed); the root manifest is rewritten to disk only in
that case; and the worked example (`a` absent, `b` installed) returns `true`
with `b` removed from the rewritten manifest. -/
theorem C5_uninstall_batch :
    (∀ (d : String) (paths : List String) (deps : List (String × String))
        (n v : String),
        isInstalled d paths n = false →
        removePkg d paths deps n v = ⟨false, paths, deps⟩) ∧
    (∀ (st : FsState) (entries : List (String × String)) (b : Bool)
        (st' : FsState),
        uninstall st entries = .ok (b, st') →
        ((b = true ↔ st'.paths ≠ st.paths) ∧
         (b = false → st'.rootManifest = st.rootManifest))) ∧
    uninstall ⟨"/i", ["/i/node_modules/b", "/i/conda_envs/b@1"],
               some [("b", "1"), ("c", "2")]⟩ [("a", "1"), ("b", "1")]
      = .ok (true, ⟨"/i", [], some [("c", "2")]⟩) := by
  refine ⟨fun d paths deps n v h => removePkg_of_not_installed d paths deps n v h,
          ?_, by rfl⟩
  intro st entries b st' h
  cases hm : st.rootManifest with
  | none => simp [uninstall, hm] at h
  | some deps0 =>
    simp only [uninstall, hm, Except.ok.injEq, Prod.mk.injEq] at h
    obtain ⟨hb, hst⟩ := h
    subst hb
    subst hst
    constructor
    · constructor
      · intro h1
        simpa using runRemovals_true st.installDir entries st.paths deps0 h1
      · intro hne
        by_contra h0
        simp only [Bool.not_eq_true] at h0
        exact hne (by
          simpa using runRemovals_false st.installDir entries st.paths deps0 h0)
    · intro h0
      simp [h0, hm]

/-- Witness for C5: uninstalling a never-installed package is a no-op. -/
theorem C5_uninstall_batch_witness :
    removePkg "/i" [] [] "x" "1" = ⟨false, [], []⟩ :=
  C5_uninstall_batch.1 "/i" [] [] "x" "1" (by decide)

/-- Counterexample to C3 as stated: uninstalling `{name: "a", version: "1"}`
does NOT remove the versioned module install target
`node_modules/a@1` — it removes the unversioned `node_modules/a` — so the
versioned directory survives the uninstall. -/
theorem C3_counterexample :
    uninstall ⟨"/i", ["/i/node_modules/a", "/i/node_modules/a@1",
                      "/i/conda_envs/a@1"], some [("a", "1")]⟩ [("a", "1")]
        = .ok (true, ⟨"/i", ["/i/node_modules/a@1"], some []⟩) ∧
    hasPath ["/i/node_modules/a@1"]
        ("/i" ++ "/node_modules/" ++ "a" ++ "@" ++ "1") = true :=
  ⟨rfl, rfl⟩

/-- C3 (amended): for an installed entry `{name, version}`, uninstall removes
the UNVERSIONED module directory `node_modules/{name}` and the
interpreter-environment directory `conda_envs/{name}@{version}`, and deletes
the entry from the root manifest's dependency map (whose stored versions are
non-empty strings). -/
theorem C3_uninstall_removes_dirs (d : String) (paths : List String)
    (deps : List (String × String)) (n v : String)
    (hinst : isInstalled d paths n = true)
    (hdeps : ∀ kv ∈ deps, kv.2 ≠ "") :
    (removePkg d paths deps n v).removed = true ∧
    (d ++ "/node_modules/" ++ n) ∉ (removePkg d paths deps n v).paths ∧
    (d ++ "/conda_envs/" ++ n ++ "@" ++ v) ∉ (removePkg d paths deps n v).paths ∧
    (removePkg d paths deps n v).deps.find? (fun kv => kv.1 = n) = none := by
  refine ⟨?_, nodePath_not_mem_removePkg d paths deps n v hinst, ?_, ?_⟩
  · rw [removePkg_removed]; exact hinst
  · unfold removePkg
    rw [if_pos hinst]
    exact not_mem_removeRec_self _ _
  · unfold removePkg
    rw [if_pos hinst]
    cases hf : deps.find? (fun kv => kv.1 = n) with
    | none => simp [hf]
    | some kv =>
      have hkv2 : kv.2 ≠ "" := hdeps kv (List.mem_of_find?_eq_some hf)
      simp only [hf, if_neg hkv2]
      rw [List.find?_eq_none]
      intro x hx
      simp only [List.mem_filter, decide_eq_true_eq] at hx
      simp [hx.2]

/-- Witness for C3 (amended) at a concrete installed plugin `a@1`. -/
theorem C3_uninstall_removes_dirs_witness :
    (removePkg "/i" ["/i/node_modules/a", "/i/conda_envs/a@1"] [("a", "1")]
        "a" "1").removed = true ∧
    ("/i" ++ "/node_modules/" ++ "a")
      ∉ (removePkg "/i" ["/i/node_modules/a", "/i/conda_envs/a@1"]
          [("a", "1")] "a" "1").paths ∧
    ("/i" ++ "/conda_envs/" ++ "a" ++ "@" ++ "1")
      ∉ (removePkg "/i" ["/i/node_modules/a", "/i/conda_envs/a@1"]
          [("a", "1")] "a" "1").paths ∧
    (removePkg "/i" ["/i/node_modules/a", "/i/conda_envs/a@1"] [("a", "1")]
        "a" "1").deps.find? (fun kv => kv.1 = "a") = none :=
  C3_uninstall_removes_dirs "/i" ["/i/node_modules/a", "/i/conda_envs/a@1"]
    [("a", "1")] "a" "1" (by decide) (by decide)

/-- C4: `install` with `force = true` performs the uninstall pass before the
already-installed short-circuit check (it is the first action, and
provisioning still happens even on an already-installed package); with
`force` absent or `false` on an already-installed package it returns `true`
with no provisioning action and an unchanged state. -/
theorem C4_install_force_and_idempotence :
    (∀ (st : FsState) (boa hasDeps : Bool) (n v : String),
        (install st boa hasDeps n v (some true)).1.head?
          = some .uninstallPass) ∧
    (∀ (st : FsState) (hasDeps : Bool) (n v : String)
        (deps0 : List (String × String)),
        st.rootManifest = some deps0 →
        isInstalled st.installDir st.paths n = true →
        .nodeInstall ∈ (install st true hasDeps n v (some true)).1) ∧
    (∀ (st : FsState) (boa hasDeps : Bool) (n v : String)
        (force : Option Bool),
        force ≠ some true →
        isInstalled st.installDir st.paths n = true →
        install st boa hasDeps n v force = ([], .ok (true, st))) := by
  refine ⟨?_, ?_, ?_⟩
  · intro st boa hasDeps n v
    simp only [install, if_pos rfl]
    cases h : uninstall st [(n, v)] <;> simp [h]
  · intro st hasDeps n v deps0 hm hinst
    simp only [install, if_pos rfl, uninstall, hm, installBody]
    split <;> simp_all
  · intro st boa hasDeps n v force hf hinst
    unfold install
    rw [if_neg hf]
    simp [installBody, hinst]

/-- Witness for C4: force-less install on an installed package is an exact
no-op returning `true`. -/
theorem C4_install_force_and_idempotence_witness :
    install ⟨"/i", ["/i/node_modules/a"], some []⟩ true false "a" "1" none
      = ([], .ok (true, ⟨"/i", ["/i/node_modules/a"], some []⟩)) :=
  C4_install_force_and_idempotence.2.2 ⟨"/i", ["/i/node_modules/a"], some []⟩
    true false "a" "1" none (by decide) (by decide)

/-- C9: the installed-check consults only the unversioned
`{installDir}/node_modules/{name}` path — the uninstall skip decision and
the whole force-less install run are invariant under the version, and a
versioned install at `node_modules/a@1` is invisible to the check. -/
theorem C9_version_blind_installed_check :
    (∀ (d : String) (paths : List String) (deps : List (String × String))
        (n v1 v2 : String),
        (removePkg d paths deps n v1).removed
          = (removePkg d paths deps n v2).removed) ∧
    (∀ (st : FsState) (boa hasDeps : Bool) (n v1 v2 : String)
        (force : Option Bool),
        force ≠ some true →
        install st boa hasDeps n v1 force = install st boa hasDeps n v2 force) ∧
    isInstalled "/i" ["/i/node_modules/a@1"] "a" = false ∧
    (removePkg "/i" ["/i/node_modules/a@1"] [("a", "1")] "a" "1").removed
      = false := by
  refine ⟨?_, ?_, by decide, ?_⟩
  · intro d paths deps n v1 v2
    rw [removePkg_removed, removePkg_removed]
  · intro st boa hasDeps n v1 v2 force hf
    unfold install
    rw [if_neg hf]
    rw [if_neg hf]
  · rw [removePkg_removed]; decide

/-- Witness for C9: a force-less install is literally the same computation
for versions `1` and `2` of the same name. -/
theorem C9_version_blind_installed_check_witness :
    install ⟨"/i", [], some []⟩ true false "a" "1" none
      = install ⟨"/i", [], some []⟩ true false "a" "2" none :=
  C9_version_blind_installed_check.2.1 ⟨"/i", [], some []⟩ true false
    "a" "1" "2" none (by decide)

/-- `CondaConfig`: the optional interpreter-stack dependency declaration,
a name → version-spec/wildcard/git-url map embedded as an association
list. -/
structure CondaConfig where
  dependencies : List (String × String)
  deriving DecidableEq, Repr

/-- `createRequirements(name, config)` from `runtime.ts:119`: one
requirement line per dependency pair — `*` gives the bare name, a
`git+https://`-led value is used verbatim, anything else gives
`name==version`. -/
def createRequirements (name : String) (config : CondaConfig) : List String :=
  config.dependencies.map (fun kv =>
    if kv.2 = "*" then kv.1
    else if strBegins kv.2 "git+https://" then kv.2
    else kv.1 ++ "==" ++ kv.2)

/-- First index of `'/'` in a character list, JS
`String.prototype.search('/')` with `-1` embedded as `none`. -/
def slashIdx : List Char → Option Nat
  | [] => none
  | c :: cs => if c = '/' then some 0 else (slashIdx cs).map (fun i => i + 1)

/-- JS `String.prototype.split('@')` on character lists. -/
def splitOnAt : List Char → List (List Char)
  | [] => [[]]
  | c :: cs =>
    let r := splitOnAt cs
    if c = '@' then [] :: r
    else
      match r with
      | [] => [[c]]
      | g :: gs => (c :: g) :: gs

/-- `getNameSchema(fullname)` from `runtime.ts:480`: a leading `@` demands a
`/` (else the parse throws); the scope is the text before the `/`, and the
remainder splits on `@` into name and optional version (an empty version
segment is falsy and becomes `null`). -/
def getNameSchema (fullname : String) :
    Except CostaError NpmPackageNameSchema :=
  let cs := fullname.toList
  let scPart : Except CostaError (Option String × List Char) :=
    if cs.head? = some '@' then
      match slashIdx cs with
      | none =>
        .error (.sourceResolutionError ("invalid package name: " ++ fullname))
      | some i => .ok (some (String.mk (cs.take i)), cs.drop (i + 1))
    else .ok (none, cs)
  scPart.map (fun sc =>
    let parts := splitOnAt sc.2
    { scope := sc.1
      name := String.mk (parts.headD [])
      version :=
        match parts[1]? with
        | some v => if String.mk v = "" then none else some (String.mk v)
        | none => none })

/-- `PluginPackage.pipcook.target`: the two deterministic install target
paths injected by `assignPackage`. -/
structure PipcookTarget where
  PYTHONPATH : String
  DESTPATH : String
  deriving DecidableEq, Repr

/-- The truthy `pipcook` manifest field (the runtime only ever writes its
`source` and `target` sub-fields; an absent/falsy field is `none` at the
`PluginPackage` level). -/
structure PipcookField where
  source : Option PluginSource := none
  target : Option PipcookTarget := none
  deriving DecidableEq, Repr

/-- The fetched plugin manifest. -/
structure PluginPackage where
  name : String
  version : String
  pipcook : Option PipcookField := none
  conda : Option CondaConfig := none
  deriving DecidableEq, Repr

/-- `validPackage(pkg)` from `runtime.ts:526`: a falsy `pipcook` field
throws. -/
def validPackage (pkg : PluginPackage) : Except CostaError Unit :=
  if pkg.pipcook.isNone then
    .error (.validationError
      "Invalid plugin package.json, not found on \"pipcook\"")
  else .ok ()

/-- `assignPackage(pkg, source)` from `runtime.ts:537`: inject the source
and the target paths computed from `(name, version, installDir)`
(property write on a falsy `pipcook` field would crash). -/
def assignPackage (installDir : String) (pkg : PluginPackage)
    (source : PluginSource) : Except CostaError PluginPackage :=
  match pkg.pipcook with
  | none => .error .crash
  | some pc =>
    .ok { pkg with pipcook := some { pc with
      source := some source
      target := some
        { PYTHONPATH := installDir ++ "/conda_envs/" ++ pkg.name ++ "@"
            ++ pkg.version ++ "/lib/python3.7/site-packages"
          DESTPATH := installDir ++ "/node_modules/" ++ pkg.name ++ "@"
            ++ pkg.version } } }

/-- `validAndAssign(pkg, source)` from `runtime.ts:220`: validate then
assign; a failure is downgraded to a warning (returning the package
untouched) exactly when `NODE_ENV === "test"`. -/
def validAndAssign (installDir : String) (nodeEnvIsTest : Bool)
    (pkg : PluginPackage) (source : PluginSource) :
    Except CostaError PluginPackage :=
  match (validPackage pkg).bind
      (fun _ => assignPackage installDir pkg source) with
  | .ok p => .ok p
  | .error e => if nodeEnvIsTest then .ok pkg else .error e

theorem slashIdx_none_of_not_mem :
    ∀ {l : List Char}, '/' ∉ l → slashIdx l = none := by
  intro l h
  induction l with
  | nil => rfl
  | cons c cs ih =>
    simp only [List.mem_cons, not_or] at h
    have hc : ¬ (c = '/') := fun hcc => h.1 hcc.symm
    simp [slashIdx, hc, ih h.2]

/-- C6: requirement-line derivation maps each `(name, value)` dependency
pair independently — `*` to the bare name, a `git+https://`-led value to
itself verbatim, any other value to `name==value` — matching the worked
examples. -/
theorem C6_requirement_lines :
    (∀ (nm k : String), createRequirements nm ⟨[(k, "*")]⟩ = [k]) ∧
    (∀ (nm k v : String), strBegins v "git+https://" = true →
        createRequirements nm ⟨[(k, v)]⟩ = [v]) ∧
    (∀ (nm k v : String), v ≠ "*" → strBegins v "git+https://" = false →
        createRequirements nm ⟨[(k, v)]⟩ = [k ++ "==" ++ v]) ∧
    (∀ (nm : String) (d1 d2 : List (String × String)),
        createRequirements nm ⟨d1 ++ d2⟩
          = createRequirements nm ⟨d1⟩ ++ createRequirements nm ⟨d2⟩) ∧
    createRequirements "p" ⟨[("numpy", "*"), ("foo", "git+https://x/y"),
                             ("bar", "1.0")]⟩
      = ["numpy", "git+https://x/y", "bar==1.0"] := by
  refine ⟨?_, ?_, ?_, ?_, by rfl⟩
  · intro nm k; simp [createRequirements]
  · intro nm k v hv
    have hne : v ≠ "*" := by
      intro hveq
      subst hveq
      exact absurd hv (by decide)
    simp [createRequirements, hne, hv]
  · intro nm k v h1 h2; simp [createRequirements, h1, h2]
  · intro nm d1 d2; simp [createRequirements]

/-- Witness for C6 at the verbatim-git example. -/
theorem C6_requirement_lines_witness :
    createRequirements "p" ⟨[("foo", "git+https://x/y")]⟩
      = ["git+https://x/y"] :=
  C6_requirement_lines.2.1 "p" "foo" "git+https://x/y" (by decide)

/-- C7: parsing `"@scope/name@1.2.3"` yields
`{scope: "@scope", name: "name", version: "1.2.3"}`, and any identifier
starting with `@` that contains no `/` fails to parse. -/
theorem C7_name_schema :
    (getNameSchema "@scope/name@1.2.3").toOption
      = some { scope := some "@scope", name := "name",
               version := some "1.2.3" } ∧
    (∀ (s : String), s.toList.head? = some '@' → '/' ∉ s.toList →
        (getNameSchema s).toOption = none) := by
  constructor
  · rfl
  · intro s h1 h2
    rw [String.toList] at h1 h2
    simp [getNameSchema, h1, slashIdx_none_of_not_mem h2, Except.map,
      Except.toOption]

/-- Witness for C7: `"@scope"` (no `/`) fails to parse. -/
theorem C7_name_schema_witness : (getNameSchema "@scope").toOption = none :=
  C7_name_schema.2 "@scope" (by decide) (by decide)

/-- C8: validate-and-assign fails with a ValidationError when the package
lacks a truthy `pipcook` field, unless the lenient test mode is active, in
which case the package is returned unchanged; on success the deterministic
target paths computed from `(name, version, installDir)` are injected
together with the source. -/
theorem C8_valid_and_assign :
    (∀ (d : String) (pkg : PluginPackage) (src : PluginSource),
        pkg.pipcook = none →
        validAndAssign d false pkg src
          = .error (.validationError
              "Invalid plugin package.json, not found on \"pipcook\"")) ∧
    (∀ (d : String) (pkg : PluginPackage) (src : PluginSource),
        pkg.pipcook = none →
        validAndAssign d true pkg src = .ok pkg) ∧
    (∀ (d : String) (t : Bool) (pkg : PluginPackage) (src : PluginSource)
        (pc : PipcookField),
        pkg.pipcook = some pc →
        validAndAssign d t pkg src = .ok { pkg with pipcook := some { pc with
          source := some src
          target := some
            { PYTHONPATH := d ++ "/conda_envs/" ++ pkg.name ++ "@"
                ++ pkg.version ++ "/lib/python3.7/site-packages"
              DESTPATH := d ++ "/node_modules/" ++ pkg.name ++ "@"
                ++ pkg.version } } }) := by
  refine ⟨?_, ?_, ?_⟩
  · intro d pkg src h
    simp [validAndAssign, validPackage, h, Except.bind]
  · intro d pkg src h
    simp [validAndAssign, validPackage, h, Except.bind]
  · intro d t pkg src pc h
    simp [validAndAssign, validPackage, assignPackage, h, Except.bind]

/-- Witness for C8: a valid fs-sourced package gets its source and computed
target paths injected. -/
theorem C8_valid_and_assign_witness :
    validAndAssign "/i" false
        { name := "a", version := "1", pipcook := some {}, conda := none }
        ⟨.fs, "/p", some "/p", none⟩
      = .ok { name := "a", version := "1",
              pipcook := some
                { source := some ⟨.fs, "/p", some "/p", none⟩
                  target := some
                    { PYTHONPATH := "/i" ++ "/conda_envs/" ++ "a" ++ "@"
                        ++ "1" ++ "/lib/python3.7/site-packages"
                      DESTPATH := "/i" ++ "/node_modules/" ++ "a" ++ "@"
                        ++ "1" } }
              conda := none } :=
  C8_valid_and_assign.2.2 "/i" false
    { name := "a", version := "1", pipcook := some {}, conda := none }
    ⟨.fs, "/p", some "/p", none⟩ {} rfl

end Costa
